import Mathlib

/-!
Verification of the GemSec security analyzer's matching engine
(`src/services/securityAnalyzer.ts`).

Source text is modelled as `List Char`; a position is a 0-based index into
that list (matching JavaScript string indices for the inputs considered
here, which contain only BMP code points).  JavaScript `undefined` values
(out-of-range indexing, optional fields) are modelled with `Option`.
-/

namespace GemSec

/-- Named characters, so the development never spells quote characters as
character literals. -/
def singleQuoteChar : Char := Char.ofNat 39

def doubleQuoteChar : Char := Char.ofNat 34

def backslashChar : Char := Char.ofNat 92

def backtickChar : Char := Char.ofNat 96

def openBraceChar : Char := Char.ofNat 123

def closeBraceChar : Char := Char.ofNat 125

/-- The ECMAScript whitespace class matched by the whitespace escape
in regular expressions, also used by JavaScript string trimming: tab,
line feed, vertical tab, form feed, carriage return, space, no-break
space, the Unicode space separators, and the byte-order mark. -/
def isJsWhitespace (c : Char) : Bool :=
  c.toNat ∈ [9, 10, 11, 12, 13, 32, 160, 0x1680, 0x2028, 0x2029,
    0x202f, 0x205f, 0x3000, 0xfeff]
  || (0x2000 ≤ c.toNat && c.toNat ≤ 0x200a)

/-- JavaScript `String.prototype.trim`: strip `\s` characters from both
ends. -/
def jsTrim (l : List Char) : List Char :=
  ((l.dropWhile isJsWhitespace).reverse.dropWhile isJsWhitespace).reverse

/-- JavaScript `content.split("\n")`: the empty string yields `[""]`, and a
trailing newline yields a trailing empty piece. -/
def splitNl : List Char → List (List Char)
  | [] => [[]]
  | c :: rest =>
    let r := splitNl rest
    if c = '\n' then [] :: r
    else
      match r with
      | [] => [[c]]
      | l :: ls => (c :: l) :: ls

/-- State of the single-pass lexical classifier in
`SecurityAnalyzer.isInsideStringOrComment` (six mutable booleans of the
source). -/
structure LexState where
  inSingleQuote : Bool
  inDoubleQuote : Bool
  inTemplateLiteral : Bool
  inSingleLineComment : Bool
  inMultiLineComment : Bool
  escapeNext : Bool
deriving DecidableEq

def initLexState : LexState :=
  { inSingleQuote := false, inDoubleQuote := false, inTemplateLiteral := false
    inSingleLineComment := false, inMultiLineComment := false, escapeNext := false }

/-- One iteration of the `while` loop of `isInsideStringOrComment`
(source lines 113–168), given the current character and the following one
(`none` when past the end).  Returns the updated state together with the
number of characters consumed (the source advances `i` by 1 or by 2).

The branch structure mirrors the source exactly: the escape branches come
first; the comment-opener branches are guarded by being outside quotes and
outside a multi-line comment (the source does NOT consult
`inSingleLineComment` here); the multi-line-comment close follows; finally
the newline check and the quote toggles fall through in the same
iteration. -/
def lexStep (st : LexState) (c : Char) (next : Option Char) : LexState × Nat :=
  if st.escapeNext then
    ({ st with escapeNext := false }, 1)
  else if c = backslashChar then
    ({ st with escapeNext := true }, 1)
  else if !st.inSingleQuote && !st.inDoubleQuote && !st.inTemplateLiteral
      && !st.inMultiLineComment && c = '/' && next = some '/' then
    ({ st with inSingleLineComment := true }, 2)
  else if !st.inSingleQuote && !st.inDoubleQuote && !st.inTemplateLiteral
      && !st.inMultiLineComment && c = '/' && next = some '*' then
    ({ st with inMultiLineComment := true }, 2)
  else if st.inMultiLineComment && c = '*' && next = some '/' then
    ({ st with inMultiLineComment := false }, 2)
  else
    let st1 :=
      if st.inSingleLineComment && c = '\n' then
        { st with inSingleLineComment := false }
      else st
    let st2 :=
      if !st1.inSingleLineComment && !st1.inMultiLineComment then
        if c = singleQuoteChar && !st1.inDoubleQuote && !st1.inTemplateLiteral then
          { st1 with inSingleQuote := !st1.inSingleQuote }
        else if c = doubleQuoteChar && !st1.inSingleQuote && !st1.inTemplateLiteral then
          { st1 with inDoubleQuote := !st1.inDoubleQuote }
        else if c = backtickChar && !st1.inSingleQuote && !st1.inDoubleQuote then
          { st1 with inTemplateLiteral := !st1.inTemplateLiteral }
        else st1
      else st1
    (st2, 1)

/-- Run the classifier loop with a remaining budget of `position - i`
characters; the loop also stops at the end of the text.  A step that
consumes two characters may overshoot the budget, exactly as `i += 2` may
overshoot `position` in the source. -/
def scanFrom : Nat → List Char → LexState → LexState
  | 0, _, st => st
  | _ + 1, [], st => st
  | n + 1, c :: rest, st =>
    let s := lexStep st c rest.head?
    if s.2 = 2 then
      match n, rest with
      | 0, _ => s.1
      | _ + 1, [] => s.1
      | m + 1, _ :: rest2 => scanFrom m rest2 s.1
    else scanFrom n rest s.1

/-- `SecurityAnalyzer.isInsideStringOrComment` (source lines 104–177):
scan from the start of the text up to `position` and report whether any of
the five string/comment flags is still set (`escapeNext` is not part of
the returned disjunction, as in the source). -/
def isInsideStringOrComment (content : List Char) (position : Nat) : Bool :=
  let st := scanFrom position content initLexState
  st.inSingleQuote || st.inDoubleQuote || st.inTemplateLiteral
    || st.inSingleLineComment || st.inMultiLineComment

/-- Character class `[\s,;)\]}:=]` from the closing-slash test of
`isInsideRegexLiteral`. -/
def regexTerminatorChar (c : Char) : Bool :=
  isJsWhitespace c || c ∈ [',', ';', ')', ']', ':', '='] || c = closeBraceChar

/-- Character class `[gimsuvy]` of regex flags. -/
def regexFlagChar (c : Char) : Bool :=
  c ∈ ['g', 'i', 'm', 's', 'u', 'v', 'y']

/-- Character class `[\s=:(\[{,;]` (expression-start context before an
opening slash). -/
def exprStartChar (c : Char) : Bool :=
  isJsWhitespace c || c ∈ ['=', ':', '(', '[', ',', ';'] || c = openBraceChar

/-- Character class `[a-zA-Z0-9_\)\]\}]` (identifier-like context,
suggesting division rather than a regex literal). -/
def identLikeChar (c : Char) : Bool :=
  ('a' ≤ c && c ≤ 'z') || ('A' ≤ c && c ≤ 'Z') || ('0' ≤ c && c ≤ '9')
  || c = '_' || c ∈ [')', ']'] || c = closeBraceChar

/-- Forward search of `isInsideRegexLiteral` (source lines 60–70): the
first `j` in `[max(0, position-50), min(length, position+20))` with
`j ≥ position`, `content[j] = '/'`, and a next character that is absent, a
terminator, or a regex flag. -/
def findClosingSlash (content : List Char) (position : Nat) : Option Nat :=
  let lo := position - 50
  let hi := min content.length (position + 20)
  (List.range' lo (hi - lo)).find? fun j =>
    decide (position ≤ j) && (content.get? j = some '/')
      && (match content.get? (j + 1) with
          | none => true
          | some nc => regexTerminatorChar nc || regexFlagChar nc)

/-- Backward search of `isInsideRegexLiteral` (source lines 75–96): scan
`i` downward from `min(position, closingPos) - 1` to
`max(0, position-200)` for an opening slash whose preceding character is
not `/` or `*` and which sits in expression-start context. -/
def findOpeningSlash (content : List Char) (position : Nat) (closingPos : Nat) :
    Option Nat :=
  let lo := position - 200
  let hi := min position closingPos
  ((List.range' lo (hi - lo)).reverse).find? fun i =>
    (content.get? i = some '/')
      && (let prev : Option Char := if 0 < i then content.get? (i - 1) else none
          (prev ≠ some '/') && (prev ≠ some '*')
            && (decide (i = 0)
                || (match prev with
                    | some p => exprStartChar p || !identLikeChar p
                    | none => false)))

/-- `SecurityAnalyzer.isInsideRegexLiteral` (source lines 52–99): the
heuristic regex-literal detector.  True only when a closing slash is found
at or after `position` and an opening slash strictly before it. -/
def isInsideRegexLiteral (content : List Char) (position : Nat) : Bool :=
  match findClosingSlash content position with
  | none => false
  | some closingPos =>
    match findOpeningSlash content position closingPos with
    | none => false
    | some i => decide (i < position) && decide (position ≤ closingPos)

/-- One element produced by JavaScript `content.matchAll(pattern)` as the
analyzer consumes it: `match.index` (typed as possibly `undefined` in the
source, hence `Option`) and `match[0]` (the matched text; the source reads
it as `match[0]?.length ?? 0`, hence `Option`). -/
structure RegexMatch where
  index : Option Nat
  text : Option (List Char)
deriving DecidableEq

/-- Severity levels of `SecurityPattern.severity`. -/
inductive Severity where
  | critical
  | high
  | medium
  | low
deriving DecidableEq

/-- `SecurityPattern` from `src/types.ts` as consumed by the analyzer.  The
compiled regular expression is abstracted as its `matchAll` behaviour: a
function from file text to the list of matches in order.  Concrete rules
below realise this field with `JsRegex.matchAll` of an explicit regex. -/
structure SecurityPattern where
  name : String
  pattern : List Char → List RegexMatch
  severity : Severity
  message : String
  recommendation : String

/-- `SecurityIssue` from `src/types.ts` (the fields the analyzer fills). -/
structure SecurityIssue where
  severity : Severity
  type : String
  line : Nat
  code : List Char
  context : List Char
  message : String
  recommendation : String
deriving DecidableEq

/-- `SecuritySummary`: per-severity counts. -/
structure SecuritySummary where
  critical : Nat
  high : Nat
  medium : Nat
  low : Nat
deriving DecidableEq

/-- `AnalysisResult`: one analyzed file. -/
structure AnalysisResult where
  file : String
  issues : List SecurityIssue
  summary : SecuritySummary
deriving DecidableEq

/-- Regular expressions sufficient for the rule patterns appearing in the
specification's scenarios: single-character classes, concatenation,
alternation (with the left branch preferred, as for greedy optionals), the
empty regex, and a greedy character-class repetition with a minimum count
(covering star and bounded-below repetition). -/
inductive JsRegex where
  | eps : JsRegex
  | pred : (Char → Bool) → JsRegex
  | cat : JsRegex → JsRegex → JsRegex
  | alt : JsRegex → JsRegex → JsRegex
  | repGe : (Char → Bool) → Nat → JsRegex

/-- All lengths of matches of `r` against a prefix of `s`, in backtracking
preference order (greedy longest-first for repetitions, left branch first
for alternation), as an ECMAScript engine would try them.  The engine's
chosen match at a position is the head of this list. -/
def JsRegex.matchLens : JsRegex → List Char → List Nat
  | .eps, _ => [0]
  | .pred _, [] => []
  | .pred p, c :: _ => if p c then [1] else []
  | .cat r1 r2, s =>
    (r1.matchLens s).flatMap fun n => (r2.matchLens (s.drop n)).map (n + ·)
  | .alt r1 r2, s => r1.matchLens s ++ r2.matchLens s
  | .repGe p n, s =>
    let run := (s.takeWhile p).length
    if n ≤ run then (List.range (run - n + 1)).map (fun k => run - k) else []

/-- First match of `r` in `s` at a position at or after `i`: the smallest
such position together with the preferred match length there (ECMAScript
left-to-right search). -/
def JsRegex.firstMatchFrom (r : JsRegex) (s : List Char) (i : Nat) :
    Option (Nat × Nat) :=
  ((List.range' i (s.length + 1 - i)).filterMap fun j =>
    (r.matchLens (s.drop j)).head?.map fun L => (j, L)).head?

/-- Iterate matches in the manner of `String.prototype.matchAll` with a
global regex: after a match of length `L` at position `j`, the search
resumes at `j + L`, or at `j + 1` when the match was empty. -/
def JsRegex.matchAllAux (r : JsRegex) (s : List Char) : Nat → Nat → List RegexMatch
  | 0, _ => []
  | fuel + 1, i =>
    match r.firstMatchFrom s i with
    | none => []
    | some (j, L) =>
      { index := some j, text := some ((s.drop j).take L) } ::
        r.matchAllAux s fuel (j + max L 1)

/-- ECMAScript `text.matchAll(regex)` for a global regex, modelled for the
regexes of `JsRegex`. -/
def JsRegex.matchAll (r : JsRegex) (s : List Char) : List RegexMatch :=
  r.matchAllAux s (s.length + 2) 0

/-- Line number as the source computes it at source line 215:
`content.substring(0, match.index).split("\n").length`. -/
def lineNumberAt (content : List Char) (matchStart : Nat) : Nat :=
  (splitNl (content.take matchStart)).length

/-- Line-numbered entries of the context window of
`SecurityAnalyzer.buildContextSnippet` (source lines 324–335): the slice
`lines.slice(start, end)` with `start = max(0, line - 1 - radius)` and
`end = min(lines.length, line + radius)`, each entry carrying its 1-based
line number and its marker character (a greater-than sign on the matching
line, a space otherwise). -/
def contextEntries (lines : List (List Char)) (line : Nat) (radius : Nat) :
    List (Nat × Char × List Char) :=
  let start := line - 1 - radius
  let stop := min lines.length (line + radius)
  ((lines.drop start).take (stop - start)).enum.map fun p =>
    let currentLine := start + p.1 + 1
    (currentLine, if currentLine = line then '>' else ' ', p.2)

/-- Decimal digits of a line number, padded on the left to width 4 with
spaces (`currentLine.toString().padStart(4, " ")`). -/
def padStart4 (n : Nat) : List Char :=
  let ds := (Nat.repr n).data
  List.replicate (4 - ds.length) ' ' ++ ds

/-- `SecurityAnalyzer.buildContextSnippet`: format each context entry as
marker, space, padded line number, a space-pipe-space separator, and the
line content, joined with newlines. -/
def buildContextSnippet (lines : List (List Char)) (line : Nat)
    (radius : Nat := 2) : List Char :=
  List.intercalate ['\n'] ((contextEntries lines line radius).map fun e =>
    [e.2.1, ' '] ++ padStart4 e.1 ++ [' ', '|', ' '] ++ e.2.2)

/-- `SecurityAnalyzer.buildSummary` (source lines 315–322): count the
issues of each severity by filtering the issue list. -/
def buildSummary (issues : List SecurityIssue) : SecuritySummary :=
  { critical := (issues.filter fun i => decide (i.severity = Severity.critical)).length
    high := (issues.filter fun i => decide (i.severity = Severity.high)).length
    medium := (issues.filter fun i => decide (i.severity = Severity.medium)).length
    low := (issues.filter fun i => decide (i.severity = Severity.low)).length }

/-- `SecurityAnalyzer.analyzeFile` (source lines 179–235) in the branch
where `fileContent` is supplied by the caller: the content is used
directly, `actualFilePath` keeps the supplied `filePath` (no path
resolution, no extension check), and every pattern is matched against the
whole content.  A match without an index is skipped; a match whose start,
or whose last character, lies inside a string or comment, or whose start
lies inside a regex literal, is discarded.  Surviving matches are emitted
in pattern order then match order.  `issueOfMatch` is the body of the
inner match loop (source lines 199–227); `analyzeFile` below is the
function itself. -/
def issueOfMatch (pat : SecurityPattern) (lines : List (List Char))
    (content : List Char) (m : RegexMatch) : Option SecurityIssue :=
  match m.index with
  | none => none
  | some matchStart =>
    let matchLen := match m.text with | some t => t.length | none => 0
    let matchEnd := matchStart + matchLen
    if isInsideStringOrComment content matchStart
        || isInsideStringOrComment content (matchEnd - 1)
        || isInsideRegexLiteral content matchStart then
      none
    else
      let lineNum := lineNumberAt content matchStart
      let lineContent :=
        match lines.get? (lineNum - 1) with
        | some l => jsTrim l
        | none => []
      some { severity := pat.severity
             type := pat.name
             line := lineNum
             code := lineContent
             context := buildContextSnippet lines lineNum 2
             message := pat.message
             recommendation := pat.recommendation }

def analyzeFile (patterns : List SecurityPattern) (filePath : String)
    (content : List Char) : AnalysisResult :=
  let lines := splitNl content
  let issues := patterns.flatMap fun pat =>
    (pat.pattern content).filterMap (issueOfMatch pat lines content)
  { file := filePath, issues := issues, summary := buildSummary issues }

/-- Extensions accepted by the analyzer (`private readonly extensions`). -/
def extensions : List String := [".ts", ".tsx", ".js", ".jsx"]

/-- `SecurityAnalyzer.shouldAnalyzeFile` (source lines 311–313):
`extensions.some((ext) => fileName.endsWith(ext))`. -/
def shouldAnalyzeFile (fileName : String) : Bool :=
  extensions.any fun ext => ext.data.isSuffixOf fileName.data

/-- `SecurityAnalyzer.analyzeFilesFromContent` (source lines 240–261):
skip files rejected by `shouldAnalyzeFile`, analyze the rest from their
supplied content, and keep only results with at least one issue.  (The
`try`/`catch` of the source is vacuous here: the embedded analysis is
total.) -/
def analyzeFilesFromContent (patterns : List SecurityPattern) :
    List (String × List Char) → List AnalysisResult
  | [] => []
  | f :: rest =>
    if shouldAnalyzeFile f.1 then
      let result := analyzeFile patterns f.1 f.2
      if 0 < result.issues.length then
        result :: analyzeFilesFromContent patterns rest
      else
        analyzeFilesFromContent patterns rest
    else
      analyzeFilesFromContent patterns rest

/-- Following the specification's words (one step of the classifier it
describes): identical to `lexStep` except that the comment openers fire
only when the scanner is outside every quote and comment state — the
specification says a single-line comment opens on two slashes and a block
comment opens on slash-star "outside any quote/comment state", whereas the
source's guard does not consult `inSingleLineComment`.  Written only to
compare with `lexStep`. -/
def specLexStep (st : LexState) (c : Char) (next : Option Char) : LexState × Nat :=
  if st.escapeNext then
    ({ st with escapeNext := false }, 1)
  else if c = backslashChar then
    ({ st with escapeNext := true }, 1)
  else if !st.inSingleQuote && !st.inDoubleQuote && !st.inTemplateLiteral
      && !st.inSingleLineComment && !st.inMultiLineComment
      && c = '/' && next = some '/' then
    ({ st with inSingleLineComment := true }, 2)
  else if !st.inSingleQuote && !st.inDoubleQuote && !st.inTemplateLiteral
      && !st.inSingleLineComment && !st.inMultiLineComment
      && c = '/' && next = some '*' then
    ({ st with inMultiLineComment := true }, 2)
  else if st.inMultiLineComment && c = '*' && next = some '/' then
    ({ st with inMultiLineComment := false }, 2)
  else
    let st1 :=
      if st.inSingleLineComment && c = '\n' then
        { st with inSingleLineComment := false }
      else st
    let st2 :=
      if !st1.inSingleLineComment && !st1.inMultiLineComment then
        if c = singleQuoteChar && !st1.inDoubleQuote && !st1.inTemplateLiteral then
          { st1 with inSingleQuote := !st1.inSingleQuote }
        else if c = doubleQuoteChar && !st1.inSingleQuote && !st1.inTemplateLiteral then
          { st1 with inDoubleQuote := !st1.inDoubleQuote }
        else if c = backtickChar && !st1.inSingleQuote && !st1.inDoubleQuote then
          { st1 with inTemplateLiteral := !st1.inTemplateLiteral }
        else st1
      else st1
    (st2, 1)

/-- Driver for `specLexStep`, identical to `scanFrom`. -/
def specScanFrom : Nat → List Char → LexState → LexState
  | 0, _, st => st
  | _ + 1, [], st => st
  | n + 1, c :: rest, st =>
    let s := specLexStep st c rest.head?
    if s.2 = 2 then
      match n, rest with
      | 0, _ => s.1
      | _ + 1, [] => s.1
      | m + 1, _ :: rest2 => specScanFrom m rest2 s.1
    else specScanFrom n rest s.1

/-- Classifier described by the specification's transition rules, to be
compared with the source's `isInsideStringOrComment`. -/
def specIsInsideStringOrComment (content : List Char) (position : Nat) : Bool :=
  let st := specScanFrom position content initLexState
  st.inSingleQuote || st.inDoubleQuote || st.inTemplateLiteral
    || st.inSingleLineComment || st.inMultiLineComment

/-- Following the specification's words for the batch interface: call the
single-file function per entry and keep only entries with at least one
finding.  Written only to compare with `analyzeFilesFromContent`. -/
def specBatchAnalyze (patterns : List SecurityPattern)
    (files : List (String × List Char)) : List AnalysisResult :=
  (files.map fun f => analyzeFile patterns f.1 f.2).filter
    fun r => 0 < r.issues.length

/-- ASCII alphanumeric class `[a-zA-Z0-9]`. -/
def isAsciiAlnum (c : Char) : Bool :=
  ('a' ≤ c && c ≤ 'z') || ('A' ≤ c && c ≤ 'Z') || ('0' ≤ c && c ≤ '9')

/-- Case-insensitive single-character match (the `i` flag's ASCII
canonicalisation). -/
def ciPred (c : Char) : Char → Bool := fun x => x.toLower = c.toLower

/-- Case-insensitive literal word. -/
def ciLit (s : String) : JsRegex :=
  s.data.foldr (fun c r => .cat (.pred (ciPred c)) r) .eps

/-- Case-sensitive literal word. -/
def lit (s : String) : JsRegex :=
  s.data.foldr (fun c r => .cat (.pred (fun x => x = c)) r) .eps

/-- Quote class from the hardcoded-secret pattern: a double or single
quote. -/
def isQuoteChar (c : Char) : Bool := c = doubleQuoteChar || c = singleQuoteChar

/-- The regex of the specification's end-to-end scenario, with the `i`
flag: `api`, an optional underscore or hyphen, `key`, optional whitespace,
an equals sign, optional whitespace, a quote, at least sixteen ASCII
alphanumerics, and a quote. -/
def apiKeyRegex : JsRegex :=
  .cat (ciLit ("api"))
    (.cat (.alt (.pred fun c => c = '_' || c = '-') .eps)
      (.cat (ciLit ("key"))
        (.cat (.repGe isJsWhitespace 0)
          (.cat (lit ("="))
            (.cat (.repGe isJsWhitespace 0)
              (.cat (.pred isQuoteChar)
                (.cat (.repGe isAsciiAlnum 16)
                  (.pred isQuoteChar))))))))

/-- The rule of the end-to-end scenario. -/
def hardcodedSecretRule : SecurityPattern :=
  { name := "Hardcoded Secret"
    pattern := fun c => apiKeyRegex.matchAll c
    severity := Severity.critical
    message := "Hardcoded API key"
    recommendation := "Use environment variables" }

/-- A rule whose pattern is the global regex matching the literal text
`eval(`. -/
def evalRule : SecurityPattern :=
  { name := "Eval Usage"
    pattern := fun c => (lit ("eval(")).matchAll c
    severity := Severity.high
    message := "Use of eval"
    recommendation := "Avoid eval" }

/-- A rule whose pattern is the global regex matching zero or more `a`
characters — a legitimate regex that matches the empty string. -/
def starARule : SecurityPattern :=
  { name := "Star"
    pattern := fun c => (JsRegex.repGe (fun x => x = 'a') 0).matchAll c
    severity := Severity.low
    message := "star"
    recommendation := "none" }

/-- Text of the end-to-end scenario. -/
def c1Text : List Char := ("const apiKey = \"sk_live_1234567890abcdef\";").data

/-- Text whose `eval(` occurrence sits inside a double-quoted string. -/
def evalInStringText : List Char := ("const s = \"eval(x)\";").data

/-- Text with a real `eval(` call. -/
def evalCodeText : List Char := ("eval(x);").data

/-- Text with a slash-star sequence inside a single-line comment, followed
by a newline and ordinary code. -/
def slashStarInLineCommentText : List Char := ("// /*\nx").data

/-- A ten-line text whose only `eval(` occurrence is on line seven; the
earlier lines have assorted lengths and one non-ASCII character. -/
def tenLineText : List Char :=
  ("a\nbb\nccc你\ndddd\ne\nff\neval(x); more\nhh\niii\nj").data

/-! Helper lemmas. -/

theorem splitNl_ne_nil (l : List Char) : splitNl l ≠ [] := by
  induction l with
  | nil => simp [splitNl]
  | cons c rest ih =>
    simp only [splitNl]
    split
    · simp
    · cases h : splitNl rest with
      | nil => exact absurd h ih
      | cons a as => simp [h]

theorem splitNl_length (l : List Char) :
    (splitNl l).length = l.count '\n' + 1 := by
  induction l with
  | nil => simp [splitNl]
  | cons c rest ih =>
    by_cases h : c = '\n'
    · simp [splitNl, h, List.count_cons, ih]
    · cases hr : splitNl rest with
      | nil => exact absurd hr (splitNl_ne_nil rest)
      | cons a as =>
        have hstep : splitNl (c :: rest) = (c :: a) :: as := by
          simp [splitNl, h, hr]
        have hlen : (a :: as).length = rest.count '\n' + 1 := hr ▸ ih
        simp only [hstep, List.length_cons, List.count_cons] at *
        simp [h, hlen]

theorem filterMap_skip_none {α β : Type} (idx : α → Option Nat)
    (f : α → Option β) (hf : ∀ m, idx m = none → f m = none) (l : List α) :
    l.filterMap f = (l.filter fun m => (idx m).isSome).filterMap f := by
  induction l with
  | nil => rfl
  | cons m rest ih =>
    by_cases h : (idx m).isSome
    · simp [List.filterMap_cons, List.filter_cons, h, ih]
    · have hnone : idx m = none := by
        cases hi : idx m with
        | none => rfl
        | some v => rw [hi] at h; simp at h
      simp [List.filterMap_cons, List.filter_cons, h, hf m hnone, ih]

theorem map_fst_enumFrom_shift {α : Type} (l : List α) (s : Nat) : ∀ n,
    (List.enumFrom n l).map (fun p => s + p.1 + 1) =
      List.range' (s + n + 1) l.length := by
  induction l with
  | nil => intro n; rfl
  | cons a as ih =>
    intro n
    have h2 : s + (n + 1) + 1 = s + n + 1 + 1 := by omega
    simp only [List.enumFrom, List.map_cons, List.length_cons, List.range'_succ, ih, h2]

/-! Claim theorems. -/

/-- C1 counterexample: applying the end-to-end scenario's rule
`api[_-]?key\s*=\s*["'][a-zA-Z0-9]{16,}["']` (flag `i`) to the text
`const apiKey = "sk_live_1234567890abcdef";` does NOT return exactly one
finding: the character class of the pattern excludes underscores, so the
sixteen-alphanumerics run cannot match the underscore-containing value and
the pattern never matches. -/
theorem endToEnd_scenario_counterexample :
    (analyzeFile [hardcodedSecretRule] ("config.ts") c1Text).issues.length ≠ 1 := by
  decide

/-- C1 (amended): for the end-to-end scenario's rule applied to
`const apiKey = "sk_live_1234567890abcdef";`, `analyzeFile` returns zero
findings and an all-zero summary, with the supplied path echoed back. -/
theorem endToEnd_scenario_zero_findings :
    analyzeFile [hardcodedSecretRule] ("config.ts") c1Text =
      { file := "config.ts", issues := [],
        summary := { critical := 0, high := 0, medium := 0, low := 0 } } := by
  decide

/-- C3: with a rule whose pattern is the global regex for the literal text
`eval(`, analyzing `const s = "eval(x)";` (the occurrence lies inside a
double-quoted string) yields zero findings, while analyzing `eval(x);`
yields exactly one finding. -/
theorem string_literal_suppression :
    (analyzeFile [evalRule] ("t.ts") evalInStringText).issues.length = 0 ∧
      (analyzeFile [evalRule] ("t.ts") evalCodeText).issues.length = 1 := by
  decide

/-- C5 counterexample: the claim fails for a non-empty rule set containing
a pattern that matches the empty string: the global regex matching zero or
more `a` characters matches the empty text at offset 0 (as in ECMAScript),
so `analyzeFile` of the empty text emits one finding, not zero. -/
theorem empty_input_counterexample :
    ([starARule] : List SecurityPattern) ≠ [] ∧
      (analyzeFile [starARule] ("e.ts") ([] : List Char)).issues.length = 1 := by
  exact ⟨by simp, by decide⟩

/-- C5 (amended): for every non-empty rule set none of whose patterns
produces a match on the empty text, `analyzeFile` applied to the empty
file text returns an empty issue list and an all-zero summary. -/
theorem empty_input_no_findings (patterns : List SecurityPattern) (path : String)
    (_hne : patterns ≠ []) (hp : ∀ p ∈ patterns, p.pattern [] = []) :
    (analyzeFile patterns path []).issues = [] ∧
      (analyzeFile patterns path []).summary =
        { critical := 0, high := 0, medium := 0, low := 0 } := by
  have hiss : (analyzeFile patterns path []).issues = [] := by
    exact List.flatMap_eq_nil_iff.mpr fun pat hpat => by
      rw [hp pat hpat, List.filterMap_nil]
  refine ⟨hiss, ?_⟩
  have hsum : (analyzeFile patterns path []).summary =
      buildSummary ((analyzeFile patterns path []).issues) := rfl
  rw [hsum, hiss]
  rfl

/-- C5 witness: the amended statement at the concrete rule set containing
only the `eval(` rule. -/
theorem empty_input_no_findings_witness :
    (analyzeFile [evalRule] ("e.ts") []).issues = [] ∧
      (analyzeFile [evalRule] ("e.ts") []).summary =
        { critical := 0, high := 0, medium := 0, low := 0 } :=
  empty_input_no_findings [evalRule] ("e.ts") (by simp)
    (by intro p hp; rw [List.mem_singleton] at hp; subst hp; decide)

/-- C2 counterexample: the batch function is NOT equivalent to per-entry
analysis filtered to non-empty results: a path not ending in a recognised
extension is skipped by the batch function even though its content
produces a finding under per-entry analysis. -/
theorem batch_equivalence_counterexample :
    analyzeFilesFromContent [evalRule] [(("a.txt"), evalCodeText)] = [] ∧
      (analyzeFile [evalRule] ("a.txt") evalCodeText).issues.length = 1 ∧
      analyzeFilesFromContent [evalRule] [(("a.txt"), evalCodeText)] ≠
        specBatchAnalyze [evalRule] [(("a.txt"), evalCodeText)] := by
  refine ⟨by decide, by decide, by decide⟩

/-- C2 (amended): for every sequence of (path, content) pairs,
`analyzeFilesFromContent` returns exactly the results of the single-file
`analyzeFile` on each entry whose path ends in one of `.ts`, `.tsx`,
`.js`, `.jsx` (the `shouldAnalyzeFile` check), in order, keeping only
entries whose analysis produced at least one finding. -/
theorem batch_equivalence_with_extension_filter
    (patterns : List SecurityPattern) (files : List (String × List Char)) :
    analyzeFilesFromContent patterns files =
      specBatchAnalyze patterns (files.filter fun f => shouldAnalyzeFile f.1) := by
  induction files with
  | nil => rfl
  | cons f rest ih =>
    by_cases hext : shouldAnalyzeFile f.1
    · by_cases hiss : 0 < (analyzeFile patterns f.1 f.2).issues.length
      · simp [analyzeFilesFromContent, specBatchAnalyze, List.filter_cons,
          hext, hiss, ih]
      · simp [analyzeFilesFromContent, specBatchAnalyze, List.filter_cons,
          hext, hiss, ih]
    · simp [analyzeFilesFromContent, List.filter_cons, hext, ih]

/-- Two analyses of the same content under the same path agree entirely as
soon as their issue lists agree (the summary is computed from the
issues). -/
theorem analyzeFile_eq_of_issues_eq {P Q : List SecurityPattern}
    {path : String} {c : List Char}
    (h : (analyzeFile P path c).issues = (analyzeFile Q path c).issues) :
    analyzeFile P path c = analyzeFile Q path c := by
  have hP : analyzeFile P path c =
      { file := path, issues := (analyzeFile P path c).issues,
        summary := buildSummary (analyzeFile P path c).issues } := rfl
  have hQ : analyzeFile Q path c =
      { file := path, issues := (analyzeFile Q path c).issues,
        summary := buildSummary (analyzeFile Q path c).issues } := rfl
  rw [hP, hQ, h]

/-- Replacing a rule's pattern leaves the per-match issue construction
unchanged (it reads only the rule's other fields). -/
theorem issueOfMatch_filtered (p : SecurityPattern)
    (g : List Char → List RegexMatch) :
    issueOfMatch { p with pattern := g } = issueOfMatch p := rfl

/-- Issues of an analysis decompose along the rule list. -/
theorem analyzeFile_issues_cons (p : SecurityPattern)
    (rest : List SecurityPattern) (path : String) (content : List Char) :
    (analyzeFile (p :: rest) path content).issues =
      (p.pattern content).filterMap (issueOfMatch p (splitNl content) content)
        ++ (analyzeFile rest path content).issues := by
  simp only [analyzeFile]
  rw [List.flatMap_cons]

/-- C6: every finding emitted by `analyzeFile` has a line number between 1
and the total line count of the analyzed text, and matches whose offset is
absent are skipped without affecting the analysis (pre-filtering them away
changes nothing). -/
theorem finding_line_invariant (patterns : List SecurityPattern)
    (path : String) (content : List Char) :
    (∀ issue ∈ (analyzeFile patterns path content).issues,
        1 ≤ issue.line ∧ issue.line ≤ (splitNl content).length) ∧
      analyzeFile patterns path content =
        analyzeFile
          (patterns.map fun p =>
            { p with pattern := fun c => (p.pattern c).filter fun m => m.index.isSome })
          path content := by
  constructor
  · intro issue hmem
    simp only [analyzeFile, List.mem_flatMap, List.mem_filterMap] at hmem
    obtain ⟨pat, hpat, m, hm, hf⟩ := hmem
    simp only [issueOfMatch] at hf
    split at hf
    · exact absurd hf (by simp)
    · split at hf
      · exact absurd hf (by simp)
      · rename_i matchStart heq hcond
        have hrec := Option.some.inj hf
        subst hrec
        refine ⟨?_, ?_⟩
        · simp only [lineNumberAt, splitNl_length]
          omega
        · simp only [lineNumberAt, splitNl_length]
          have hcount := (List.take_sublist matchStart content).count_le '\n'
          omega
  · apply analyzeFile_eq_of_issues_eq
    induction patterns with
    | nil => rfl
    | cons p rest ih =>
      rw [List.map_cons, analyzeFile_issues_cons, analyzeFile_issues_cons, ih,
        issueOfMatch_filtered]
      congr 1
      exact filterMap_skip_none (fun m => m.index)
        (issueOfMatch p (splitNl content) content)
        (fun m hm => by simp only [issueOfMatch, hm]) (p.pattern content)

/-- C6 witness: the line-bound conjunct applied to the concrete finding
produced for `eval(x);`. -/
theorem finding_line_invariant_witness :
    1 ≤ (⟨Severity.high, "Eval Usage", 1, ("eval(x);").data,
          (">    1 | eval(x);").data, "Use of eval", "Avoid eval"⟩ :
          SecurityIssue).line ∧
      (⟨Severity.high, "Eval Usage", 1, ("eval(x);").data,
          (">    1 | eval(x);").data, "Use of eval", "Avoid eval"⟩ :
          SecurityIssue).line ≤ (splitNl evalCodeText).length :=
  (finding_line_invariant [evalRule] ("t.ts") evalCodeText).1
    ⟨Severity.high, "Eval Usage", 1, ("eval(x);").data,
      (">    1 | eval(x);").data, "Use of eval", "Avoid eval"⟩
    (by decide)

/-- C4 counterexample: in the text consisting of a line comment containing
a slash-star sequence, a newline, and then code, the source's classifier
still reports the position after the newline as inside a comment (the
slash-star inside the line comment opened a block comment because the
opener guard does not consult the single-line-comment flag), whereas the
classifier described by the specification's transition rules does not. -/
theorem comment_transitions_counterexample :
    isInsideStringOrComment slashStarInLineCommentText 6 = true ∧
      specIsInsideStringOrComment slashStarInLineCommentText 6 = false := by
  decide

set_option maxRecDepth 4000 in
/-- C4 (amended): in one classifier step, two slashes open a single-line
comment and slash-star opens a block comment whenever the scanner is
outside every quote and outside a block comment — regardless of the
single-line-comment flag; a single-line comment closes exactly at a
newline (when the escape flag is clear), and a block comment closes
exactly at star-slash (when the escape flag is clear). -/
theorem lexStep_comment_transitions :
    (∀ st : LexState, st.escapeNext = false → st.inSingleQuote = false →
        st.inDoubleQuote = false → st.inTemplateLiteral = false →
        st.inMultiLineComment = false →
        (lexStep st '/' (some '/')).1.inSingleLineComment = true ∧
          (lexStep st '/' (some '*')).1.inMultiLineComment = true) ∧
      (∀ (st : LexState) (c : Char) (next : Option Char),
        st.escapeNext = false → st.inSingleLineComment = true →
        ((lexStep st c next).1.inSingleLineComment = false ↔ c = '\n')) ∧
      (∀ (st : LexState) (c : Char) (next : Option Char),
        st.escapeNext = false → st.inMultiLineComment = true →
        ((lexStep st c next).1.inMultiLineComment = false ↔
          (c = '*' ∧ next = some '/'))) := by
  refine ⟨?_, ?_, ?_⟩
  · rintro ⟨sq, dq, tl, slc, mlc, esc⟩ h1 h2 h3 h4 h5
    simp only at h1 h2 h3 h4 h5
    subst h1; subst h2; subst h3; subst h4; subst h5
    cases slc <;> exact ⟨by decide, by decide⟩
  · intro st c next h1 h2
    obtain ⟨sq, dq, tl, slc, mlc, esc⟩ := st
    simp only at h1 h2
    subst h1; subst h2
    by_cases hb : c = backslashChar
    · subst hb
      have f2 : ¬ (backslashChar = '\n') := by decide
      refine iff_of_false ?_ f2
      have hx : (lexStep ⟨sq, dq, tl, true, mlc, false⟩ backslashChar next).1.inSingleLineComment = true := by
        simp [lexStep]
      simp [hx]
    by_cases hs : c = '/'
    · subst hs
      have f1 : ¬ (('/' : Char) = backslashChar) := by decide
      have f2 : ¬ (('/' : Char) = '\n') := by decide
      have f3 : ¬ (('/' : Char) = '*') := by decide
      refine iff_of_false ?_ f2
      have hx : (lexStep ⟨sq, dq, tl, true, mlc, false⟩ '/' next).1.inSingleLineComment = true := by
        simp [lexStep, f1, f2, f3]
        split_ifs <;> rfl
      simp [hx]
    by_cases hstar : c = '*'
    · subst hstar
      have f1 : ¬ (('*' : Char) = backslashChar) := by decide
      have f2 : ¬ (('*' : Char) = '\n') := by decide
      have f3 : ¬ (('*' : Char) = '/') := by decide
      refine iff_of_false ?_ f2
      have hx : (lexStep ⟨sq, dq, tl, true, mlc, false⟩ '*' next).1.inSingleLineComment = true := by
        simp [lexStep, f1, f2, f3]
        split_ifs <;> rfl
      simp [hx]
    by_cases hnl : c = '\n'
    · subst hnl
      have f1 : ¬ (('\n' : Char) = backslashChar) := by decide
      have f3 : ¬ (('\n' : Char) = '/') := by decide
      have f4 : ¬ (('\n' : Char) = '*') := by decide
      have f5 : ¬ (('\n' : Char) = singleQuoteChar) := by decide
      have f6 : ¬ (('\n' : Char) = doubleQuoteChar) := by decide
      have f7 : ¬ (('\n' : Char) = backtickChar) := by decide
      refine iff_of_true ?_ rfl
      simp [lexStep, f1, f3, f4, f5, f6, f7]
    · refine iff_of_false ?_ hnl
      have hx : (lexStep ⟨sq, dq, tl, true, mlc, false⟩ c next).1.inSingleLineComment = true := by
        simp [lexStep, hb, hs, hstar, hnl]
      simp [hx]
  · intro st c next h1 h2
    obtain ⟨sq, dq, tl, slc, mlc, esc⟩ := st
    simp only at h1 h2
    subst h1; subst h2
    by_cases hb : c = backslashChar
    · subst hb
      have f2 : ¬ (backslashChar = '*') := by decide
      refine iff_of_false ?_ (by simp [f2])
      have hx : (lexStep ⟨sq, dq, tl, slc, true, false⟩ backslashChar next).1.inMultiLineComment = true := by
        simp [lexStep]
      simp [hx]
    by_cases hs : c = '/'
    · subst hs
      have f1 : ¬ (('/' : Char) = backslashChar) := by decide
      have f2 : ¬ (('/' : Char) = '*') := by decide
      have f3 : ¬ (('/' : Char) = '\n') := by decide
      refine iff_of_false ?_ (by simp [f2])
      have hx : (lexStep ⟨sq, dq, tl, slc, true, false⟩ '/' next).1.inMultiLineComment = true := by
        simp [lexStep, f1, f2, f3]
      simp [hx]
    by_cases hstar : c = '*'
    · subst hstar
      have f1 : ¬ (('*' : Char) = backslashChar) := by decide
      have f3 : ¬ (('*' : Char) = '\n') := by decide
      by_cases hn : next = some '/'
      · subst hn
        refine iff_of_true ?_ ⟨rfl, rfl⟩
        simp [lexStep, f1, f3]
      · refine iff_of_false ?_ (by simp [hn])
        have hx : (lexStep ⟨sq, dq, tl, slc, true, false⟩ '*' next).1.inMultiLineComment = true := by
          simp [lexStep, f1, f3, hn]
        simp [hx]
    by_cases hnl : c = '\n'
    · subst hnl
      have f1 : ¬ (('\n' : Char) = backslashChar) := by decide
      have f3 : ¬ (('\n' : Char) = '/') := by decide
      have f4 : ¬ (('\n' : Char) = '*') := by decide
      refine iff_of_false ?_ (by simp [f4])
      have hx : (lexStep ⟨sq, dq, tl, slc, true, false⟩ '\n' next).1.inMultiLineComment = true := by
        simp [lexStep, f1, f3, f4]
        split_ifs <;> rfl
      simp [hx]
    · refine iff_of_false ?_ (by simp [hstar])
      have hx : (lexStep ⟨sq, dq, tl, slc, true, false⟩ c next).1.inMultiLineComment = true := by
        simp [lexStep, hb, hs, hstar, hnl]
      simp [hx]

/-- C4 witness: the opener clauses applied to a state already inside a
single-line comment. -/
theorem lexStep_comment_transitions_witness :
    (lexStep
        { inSingleQuote := false, inDoubleQuote := false,
          inTemplateLiteral := false, inSingleLineComment := true,
          inMultiLineComment := false, escapeNext := false }
        '/' (some '*')).1.inMultiLineComment = true :=
  (lexStep_comment_transitions.1
    { inSingleQuote := false, inDoubleQuote := false,
      inTemplateLiteral := false, inSingleLineComment := true,
      inMultiLineComment := false, escapeNext := false }
    rfl rfl rfl rfl rfl).2

/-- C9: the summary counts findings per severity; any issue list whose
severities are a permutation of critical, high, high, low summarises to
one critical, two high, zero medium and one low. -/
theorem severity_aggregation (issues : List SecurityIssue)
    (hp : List.Perm (issues.map fun i => i.severity)
      [Severity.critical, Severity.high, Severity.high, Severity.low]) :
    buildSummary issues =
      { critical := 1, high := 2, medium := 0, low := 1 } := by
  have key : ∀ s : Severity,
      (issues.filter fun i => decide (i.severity = s)).length =
        List.countP (fun x => decide (x = s))
          [Severity.critical, Severity.high, Severity.high, Severity.low] := by
    intro s
    rw [← List.countP_eq_length_filter]
    have h1 : List.countP (fun i => decide (i.severity = s)) issues
        = List.countP (fun x => decide (x = s))
            (issues.map fun i => i.severity) := by
      rw [List.countP_map]
      rfl
    rw [h1]
    exact hp.countP_eq _
  simp only [buildSummary]
  rw [key Severity.critical, key Severity.high, key Severity.medium,
    key Severity.low]
  rfl

/-- C9 witness: a concrete issue list with severities in the scrambled
order high, critical, low, high. -/
theorem severity_aggregation_witness :
    buildSummary
      [⟨Severity.high, "a", 1, [], [], "", ""⟩,
       ⟨Severity.critical, "b", 2, [], [], "", ""⟩,
       ⟨Severity.low, "c", 3, [], [], "", ""⟩,
       ⟨Severity.high, "d", 4, [], [], "", ""⟩] =
      { critical := 1, high := 2, medium := 0, low := 1 } :=
  severity_aggregation
    [⟨Severity.high, "a", 1, [], [], "", ""⟩,
     ⟨Severity.critical, "b", 2, [], [], "", ""⟩,
     ⟨Severity.low, "c", 3, [], [], "", ""⟩,
     ⟨Severity.high, "d", 4, [], [], "", ""⟩] (by decide)

/-- Line numbers listed by a context window form a contiguous range
starting just after the clamped window start. -/
theorem contextEntries_map_fst (lines : List (List Char)) (line radius : Nat) :
    (contextEntries lines line radius).map (fun e => e.1) =
      List.range' (line - 1 - radius + 1)
        (((lines.drop (line - 1 - radius)).take
            (min lines.length (line + radius) - (line - 1 - radius))).length) := by
  simp only [contextEntries, List.map_map]
  have h := map_fst_enumFrom_shift
    ((lines.drop (line - 1 - radius)).take
      (min lines.length (line + radius) - (line - 1 - radius)))
    (line - 1 - radius) 0
  simpa [List.enum] using h

/-- C8: the context window uses radius 2 clamped to the file bounds: every
listed line number is between 1 and the number of lines, the marker is a
greater-than sign exactly on the matching line, a match on line 1 lists
line 1 first, and a match on the last line lists the last line last. -/
theorem context_snippet_bounds (lines : List (List Char)) (line : Nat)
    (h1 : 1 ≤ line) (h2 : line ≤ lines.length) :
    (∀ e ∈ contextEntries lines line 2,
        1 ≤ e.1 ∧ e.1 ≤ lines.length ∧ (e.2.1 = '>' ↔ e.1 = line)) ∧
      (line = 1 →
        ((contextEntries lines line 2).map fun e => e.1).head? = some 1) ∧
      (line = lines.length →
        ((contextEntries lines line 2).map fun e => e.1).getLast? =
          some lines.length) := by
  have hlen : (((lines.drop (line - 1 - 2)).take
        (min lines.length (line + 2) - (line - 1 - 2))).length)
      = min (min lines.length (line + 2) - (line - 1 - 2))
          (lines.length - (line - 1 - 2)) := by
    simp [List.length_take, List.length_drop]
  refine ⟨?_, ?_, ?_⟩
  · intro e he
    have hfst : e.1 ∈ (contextEntries lines line 2).map (fun e => e.1) :=
      List.mem_map_of_mem _ he
    rw [contextEntries_map_fst, hlen, List.mem_range'_1] at hfst
    refine ⟨by omega, by omega, ?_⟩
    simp only [contextEntries, List.mem_map] at he
    obtain ⟨p, hp, hep⟩ := he
    subst hep
    by_cases hline : line - 1 - 2 + p.1 + 1 = line
    · simp [hline]
    · simp [hline, show ¬ ((' ' : Char) = '>') by decide]
  · intro hl1
    rw [contextEntries_map_fst, hlen, List.head?_range']
    split
    · rename_i h0
      exact absurd h0 (by omega)
    · simp only [Option.some.injEq]
      omega
  · intro hll
    rw [contextEntries_map_fst, hlen, List.getLast?_range']
    split
    · rename_i h0
      exact absurd h0 (by omega)
    · simp only [Option.some.injEq]
      omega

/-- C8 witness: a match on line 1 of the ten-line text lists line 1
first. -/
theorem context_snippet_bounds_witness :
    ((contextEntries (splitNl tenLineText) 1 2).map fun e => e.1).head? =
      some 1 :=
  (context_snippet_bounds (splitNl tenLineText) 1 (by decide)
    (by decide)).2.1 rfl

/-- C7: the line number the analyzer computes for a match offset equals
the count of newline characters in the text prefix strictly before that
offset, plus one; concretely, in a ten-line file (with assorted line
lengths and a non-ASCII character early on) whose only `eval(` occurrence
is on line seven, the single emitted finding carries line number seven. -/
theorem line_accuracy :
    (∀ (content : List Char) (matchStart : Nat),
        lineNumberAt content matchStart =
          (content.take matchStart).count '\n' + 1) ∧
      (splitNl tenLineText).length = 10 ∧
      (analyzeFile [evalRule] ("t.ts") tenLineText).issues.map
          (fun i => i.line) = [7] := by
  refine ⟨fun content matchStart => splitNl_length _, by decide, by decide⟩

/-- C10: in the content-supplied branch, `analyzeFile` stamps the result
with exactly the caller's path and computes issues and summary
independently of that path (no extension filtering, no path resolution);
concretely a path not ending in a recognised extension is still
analyzed. -/
theorem path_opaque_no_filtering :
    (∀ (patterns : List SecurityPattern) (filePath altPath : String)
        (content : List Char),
        (analyzeFile patterns filePath content).file = filePath ∧
          (analyzeFile patterns filePath content).issues =
            (analyzeFile patterns altPath content).issues ∧
          (analyzeFile patterns filePath content).summary =
            (analyzeFile patterns altPath content).summary) ∧
      (analyzeFile [evalRule] ("notes.txt") evalCodeText).file = "notes.txt" ∧
      (analyzeFile [evalRule] ("notes.txt") evalCodeText).issues.length = 1 := by
  exact ⟨fun patterns p q content => ⟨rfl, rfl, rfl⟩, rfl, by decide⟩

end GemSec
